import Mathlib

/-!
# Verification of the PaperRef Hub merge and duplicate-resolution engine

A shallow embedding of the bibliography merge engine of `src/app.py`:
bibliographic records are association lists from field names to string
values (Python dicts with string values), the title-keyed mapping built by
`merge_bib_data` is an insertion-ordered association list mirroring Python
dict semantics (replace-in-place for an existing key, append for a new
key), and the unguarded dictionary indexing in `find_similar_entries`
(which can raise `KeyError`) is modelled with `Option`.
-/

/-! ## Record normalizer (`normalize_title`, `normalize_id`) -/

/-- The character class kept by the regex substitution
`re.sub(r'[^a-z0-9]', '', s)`: lowercase ASCII letters and digits. -/
def keepChar (c : Char) : Bool :=
  (('a' ≤ c) && (c ≤ 'z')) || (('0' ≤ c) && (c ≤ '9'))

/-- `normalize_title`: lowercase, then remove every character outside
`[a-z0-9]` (the `re.sub(r'[^a-z0-9]', '', title.lower())` of the source). -/
def normalize_title (title : String) : String :=
  String.mk ((title.data.map Char.toLower).filter keepChar)

/-- `normalize_id`: the same transform applied to the citation key.  The
source first applies `str(...)`; record field values are strings in this
model, on which `str` is the identity. -/
def normalize_id (entry_id : String) : String :=
  String.mk ((entry_id.data.map Char.toLower).filter keepChar)

/-- Modelled from the spec (§4.1 wording, for comparison with the source
definition): lower-case, then remove every character that is not an ASCII
letter or digit. -/
def normalizeSpec (s : String) : String :=
  String.mk ((s.data.map Char.toLower).filter Char.isAlphanum)

/-! ## Records and Python-dict maps -/

/-- A bibliographic record: a Python dict from field names to string
values, in insertion order. -/
abbrev Record := List (String × String)

/-- `entry.get(k)`: the value at key `k`, if present. -/
def getField? (r : Record) (k : String) : Option String :=
  (r.find? (fun p => p.1 == k)).map (fun p => p.2)

/-- `entry.get(k, d)`: the value at key `k`, or the default `d`. -/
def getFieldD (r : Record) (k d : String) : String :=
  (getField? r k).getD d

/-- `entry[k] = v`: replace the value in place if `k` is present,
otherwise append the new key at the end (Python dict update order). -/
def setField (r : Record) (k v : String) : Record :=
  if (r.find? (fun p => p.1 == k)).isSome then
    r.map (fun p => if p.1 == k then (k, v) else p)
  else r ++ [(k, v)]

/-- A Python dict keyed by normalized title (or normalized ID), in
insertion order. -/
abbrev EMap := List (String × Record)

/-- Dict lookup `m[k]` / `k in m`. -/
def mapFind? (m : EMap) (k : String) : Option Record :=
  (m.find? (fun p => p.1 == k)).map (fun p => p.2)

/-- Dict assignment `m[k] = v`: replace in place, or append a new key. -/
def mapInsert (m : EMap) (k : String) (v : Record) : EMap :=
  if (m.find? (fun p => p.1 == k)).isSome then
    m.map (fun p => if p.1 == k then (k, v) else p)
  else m ++ [(k, v)]

/-- `list(m.values())`: the values in key insertion order. -/
def mapValues (m : EMap) : List Record := m.map (fun p => p.2)

/-- The key a record contributes to a title-keyed dict:
`normalize_title(e.get('title', ''))`. -/
def keyOf (e : Record) : String := normalize_title (getFieldD e "title" "")

/-- `{normalize_title(e.get('title', '')): e for e in es}` (dict
comprehension: last write wins, key order is first-occurrence order). -/
def buildTitleMap (es : List Record) : EMap :=
  es.foldl (fun m e => mapInsert m (keyOf e) e) []

/-! ## Merge engine (`merge_bib_data`) -/

/-- One iteration of the merge loop of `merge_bib_data` over state
`(entry_map, added_count, updated_count)`: skip an entry with falsy title;
insert as new when its normalized title is absent; when present, replace
the stored entry only if the incoming entry has strictly more fields,
preserving the stored entry's `ID`.  When neither record carries an `ID`
field the source stores Python `None`; that value is modelled as the empty
string (only the field count of the result is observable downstream). -/
def oldIdOf (stored entry : Record) : String :=
  match getField? stored "ID" with
  | some v => v
  | none => (getField? entry "ID").getD ""

def mergeStep (st : EMap × Nat × Nat) (entry : Record) : EMap × Nat × Nat :=
  let m := st.1
  let added := st.2.1
  let updated := st.2.2
  let title := getFieldD entry "title" ""
  if title = "" then (m, added, updated)
  else
    let nt := normalize_title title
    match mapFind? m nt with
    | some stored =>
      if stored.length < entry.length then
        (mapInsert m nt (setField entry "ID" (oldIdOf stored entry)), added, updated + 1)
      else (m, added, updated)
    | none => (mapInsert m nt entry, added + 1, updated)

/-- The merge engine on an already-parsed batch: build the title-keyed
map from the existing entries, fold the merge loop over the new entries,
and return `(list(entry_map.values()), added_count, updated_count)`. -/
def mergeEntries (existing newEntries : List Record) : List Record × Nat × Nat :=
  let st := newEntries.foldl mergeStep (buildTitleMap existing, 0, 0)
  (mapValues st.1, st.2.1, st.2.2)

/-- The two-attempt parse of `merge_bib_data` / `process_uploaded_files`:
`bibtexparser.loads` plain, then with an explicit `BibTexParser` fallback.
The parsers themselves are external collaborators, passed in abstractly;
`none` models a raised parse exception. -/
def tryParse (p1 p2 : String → Option (List Record)) (s : String) :
    Option (List Record) :=
  match p1 s with
  | some db => some db
  | none => p2 s

/-- `merge_bib_data(existing_entries, new_bib_str)`: on double parse
failure return `(existing_entries, 0, 0)` (the source reports the error
and returns unchanged); otherwise merge the parsed entries. -/
def merge_bib_data (p1 p2 : String → Option (List Record))
    (existing_entries : List Record) (new_bib_str : String) :
    List Record × Nat × Nat :=
  match tryParse p1 p2 new_bib_str with
  | none => (existing_entries, 0, 0)
  | some db => mergeEntries existing_entries db

/-! ## Exact-duplicate filter (`remove_exact_duplicates`) -/

/-- The `(norm_title, norm_id)` key computed for each entry. -/
def pairOf (e : Record) : String × String :=
  (normalize_title (getFieldD e "title" ""), normalize_id (getFieldD e "ID" ""))

/-- The scan of `remove_exact_duplicates`: keep an entry iff its pair is
not in `seen_entries`, then mark the pair seen (the Python set is modelled
as a list queried by membership). -/
def dedupGo (seen : List (String × String)) : List Record → List Record
  | [] => []
  | e :: rest =>
    let k := pairOf e
    if k ∈ seen then dedupGo seen rest
    else e :: dedupGo (k :: seen) rest

/-- `remove_exact_duplicates(entries)`: the scan started with an empty
seen-set. -/
def remove_exact_duplicates (entries : List Record) : List Record :=
  dedupGo [] entries

/-- Modelled from the spec (for comparison with the source definition):
keep a record iff its `(normTitle, normId)` pair has not occurred in any
earlier record — keep the head, delete every later record with the same
pair, recurse. -/
def dedupKeyed : List Record → List Record
  | [] => []
  | e :: rest => e :: dedupKeyed (rest.filter (fun x => pairOf x ≠ pairOf e))
termination_by l => l.length
decreasing_by
  simp only [List.length_cons]
  exact Nat.lt_succ_of_le (List.length_filter_le _ _)

/-! ## Similarity grouper (`find_similar_entries`) -/

/-- `{normalize_id(e.get('ID', '')): e for e in existing_entries}`. -/
def buildIdMap (es : List Record) : EMap :=
  es.foldl (fun m e => mapInsert m (normalize_id (getFieldD e "ID" "")) e) []

/-- The inner scan of `find_similar_entries`: over the later entries
(paired with their indices), skip already-processed ones, and add to the
group (marking processed) each entry matching the anchor on normalized ID
or normalized title.  Returns the added members and the final processed
set. -/
def scanGroup (title1 id1 : String) :
    List (Nat × Record) → List Nat → List Record × List Nat
  | [], processed => ([], processed)
  | (j, e2) :: rest, processed =>
    if j ∈ processed then scanGroup title1 id1 rest processed
    else
      let title2 := normalize_title (getFieldD e2 "title" "")
      let id2 := normalize_id (getFieldD e2 "ID" "")
      if id1 == id2 || title1 == title2 then
        let r := scanGroup title1 id1 rest (j :: processed)
        (e2 :: r.1, r.2)
      else scanGroup title1 id1 rest processed

/-- The second disjunct of the exclusion check:
`id1 in existing_id_map and existing_id_map[id1]['title'] == entry1.get('title', '')`.
The unguarded `['title']` access raises `KeyError` when the matched
existing record has no title field; `none` models that exception. -/
def exclCheckId (idMap : EMap) (id1 : String) (entry1 : Record) : Option Bool :=
  match mapFind? idMap id1 with
  | some e =>
    match getField? e "title" with
    | some v => some (v == getFieldD entry1 "title" "")
    | none => none
  | none => some false

/-- The exclusion check of `find_similar_entries` with Python's
short-circuit evaluation:
`(title1 in existing_title_map and existing_title_map[title1]['ID'] == entry1.get('ID', '')) or (id1 in existing_id_map and ...)`.
The unguarded `['ID']` access raises `KeyError` when the matched existing
record has no ID field; `none` models that exception. -/
def exclCheck (titleMap idMap : EMap) (title1 id1 : String) (entry1 : Record) :
    Option Bool :=
  match mapFind? titleMap title1 with
  | some e =>
    match getField? e "ID" with
    | some v =>
      if v == getFieldD entry1 "ID" "" then some true
      else exclCheckId idMap id1 entry1
    | none => none
  | none => exclCheckId idMap id1 entry1

/-- The outer loop of `find_similar_entries` over the indexed entries:
skip processed anchors, build the group by the inner scan, run the
exclusion check (discarding the whole group when it fires, but keeping
its members processed), and keep only groups of size > 1.  A `KeyError`
raised by the exclusion check aborts the whole call (`none`). -/
def fseLoop (titleMap idMap : EMap) :
    List (Nat × Record) → List Nat → Option (List (List Record))
  | [], _ => some []
  | (i, entry1) :: rest, processed =>
    if i ∈ processed then fseLoop titleMap idMap rest processed
    else
      let title1 := normalize_title (getFieldD entry1 "title" "")
      let id1 := normalize_id (getFieldD entry1 "ID" "")
      let r := scanGroup title1 id1 rest (i :: processed)
      let group := entry1 :: r.1
      match exclCheck titleMap idMap title1 id1 entry1 with
      | none => none
      | some true => fseLoop titleMap idMap rest r.2
      | some false =>
        match fseLoop titleMap idMap rest r.2 with
        | none => none
        | some gs => some (if group.length > 1 then group :: gs else gs)

/-- `find_similar_entries(entries, existing_entries)`: build both
normalized maps from the existing entries and run the anchor scan over
the enumerated batch. -/
def find_similar_entries (entries existing_entries : List Record) :
    Option (List (List Record)) :=
  fseLoop (buildTitleMap existing_entries) (buildIdMap existing_entries)
    entries.enum []

/-- Modelled from the spec (§4.3 exclusion rule, for comparison with the
source definition): the anchor is already reconciled when the existing
record with its normalized title has the anchor's raw ID, or the existing
record with its normalized ID has the anchor's raw title; total, using
defaulted field access. -/
def specExcl (titleMap idMap : EMap) (title1 id1 : String) (entry1 : Record) :
    Bool :=
  (match mapFind? titleMap title1 with
   | some e => getFieldD e "ID" "" == getFieldD entry1 "ID" ""
   | none => false) ||
  (match mapFind? idMap id1 with
   | some e => getFieldD e "title" "" == getFieldD entry1 "title" ""
   | none => false)

/-- Modelled from the spec (§4.3, for comparison with the source
definition): the anchor scan — for each not-yet-processed record in batch
order, group it with every later not-yet-processed record matching it on
normalized ID or normalized title, discard the group (members staying
processed) when the anchor is already reconciled with the library, and
keep only groups of size at least 2. -/
def specLoop (titleMap idMap : EMap) :
    List (Nat × Record) → List Nat → List (List Record)
  | [], _ => []
  | (i, entry1) :: rest, processed =>
    if i ∈ processed then specLoop titleMap idMap rest processed
    else
      let title1 := normalize_title (getFieldD entry1 "title" "")
      let id1 := normalize_id (getFieldD entry1 "ID" "")
      let r := scanGroup title1 id1 rest (i :: processed)
      let group := entry1 :: r.1
      if specExcl titleMap idMap title1 id1 entry1 then
        specLoop titleMap idMap rest r.2
      else if group.length > 1 then group :: specLoop titleMap idMap rest r.2
      else specLoop titleMap idMap rest r.2

/-- Modelled from the spec: the whole similarity grouper as the claim
describes it, total. -/
def findSimilarSpec (entries existing_entries : List Record) :
    List (List Record) :=
  specLoop (buildTitleMap existing_entries) (buildIdMap existing_entries)
    entries.enum []

/-! ## Conflict resolver reassembly (`show_conflict_resolution`) -/

/-- `{entry.get('ID', '') for group in similar_groups for entry in group}`:
the set of raw IDs of all group members (modelled as a list queried by
membership). -/
def conflictIds (groups : List (List Record)) : List String :=
  groups.foldl (fun s g => g.foldl (fun s2 e => getFieldD e "ID" "" :: s2) s) []

/-- The reassembly performed on "Continue Import": one selected entry per
group (`group[selections.get(key, 0)]`, the selection mapping modelled as
a total function from group index, out-of-range indices defaulting to the
empty record), followed by every entry of the filtered batch whose raw ID
is in no group. -/
def reassemble (groups : List (List Record)) (sels : Nat → Nat)
    (allNew : List Record) : List Record :=
  let resolved := groups.enum.map (fun p => (p.2).getD (sels p.1) [])
  let ids := conflictIds groups
  resolved ++ allNew.filter (fun e => !(ids.contains (getFieldD e "ID" "")))

/-- Modelled from the spec (§4.4 reassembly rule, for comparison with the
source definition): one chosen record per group, plus every batch record
whose raw `ID` equals the raw `ID` of no member of any group. -/
def reassembleSpec (groups : List (List Record)) (sels : Nat → Nat)
    (allNew : List Record) : List Record :=
  groups.enum.map (fun p => (p.2).getD (sels p.1) []) ++
    allNew.filter (fun e =>
      decide (∀ g ∈ groups, ∀ m ∈ g, getFieldD m "ID" "" ≠ getFieldD e "ID" ""))

/-! ## Character-level facts about the normalizer -/

theorem char_le_iff_toNat (a b : Char) : a ≤ b ↔ a.toNat ≤ b.toNat := Iff.rfl

theorem toNat_ofNat_valid {n : Nat} (h : n.isValidChar) : (Char.ofNat n).toNat = n := by
  unfold Char.ofNat
  rw [dif_pos h]
  rfl

theorem toLower_eq (c : Char) :
    Char.toLower c =
      if c.toNat ≥ 65 ∧ c.toNat ≤ 90 then Char.ofNat (c.toNat + 32) else c := rfl

theorem toLower_toNat (c : Char) :
    (Char.toLower c).toNat =
      if 65 ≤ c.toNat ∧ c.toNat ≤ 90 then c.toNat + 32 else c.toNat := by
  rw [toLower_eq]
  split
  · rename_i h
    have hv : (c.toNat + 32).isValidChar := Or.inl (by omega)
    rw [toNat_ofNat_valid hv]
  · rfl

theorem keepChar_iff (d : Char) :
    keepChar d = true ↔
      (97 ≤ d.toNat ∧ d.toNat ≤ 122) ∨ (48 ≤ d.toNat ∧ d.toNat ≤ 57) := by
  simp only [keepChar, Bool.or_eq_true, Bool.and_eq_true, decide_eq_true_eq,
    char_le_iff_toNat]
  exact Iff.rfl

theorem isAlphanum_iff (d : Char) :
    d.isAlphanum = true ↔
      ((65 ≤ d.toNat ∧ d.toNat ≤ 90) ∨ (97 ≤ d.toNat ∧ d.toNat ≤ 122)) ∨
        (48 ≤ d.toNat ∧ d.toNat ≤ 57) := by
  simp only [Char.isAlphanum, Char.isAlpha, Char.isUpper, Char.isLower, Char.isDigit,
    Bool.or_eq_true, Bool.and_eq_true, decide_eq_true_eq]
  exact Iff.rfl

/-- After lowercasing, the regex class `[a-z0-9]` and "ASCII letter or
digit" coincide: lowercasing leaves no uppercase ASCII letter. -/
theorem keepChar_toLower (c : Char) :
    keepChar (Char.toLower c) = Char.isAlphanum (Char.toLower c) := by
  have h := toLower_toNat c
  rw [Bool.eq_iff_iff, keepChar_iff, isAlphanum_iff]
  split at h <;> omega

theorem normalize_title_eq_spec (t : String) : normalize_title t = normalizeSpec t := by
  unfold normalize_title normalizeSpec
  congr 1
  apply List.filter_congr
  intro x hx
  rcases List.mem_map.mp hx with ⟨c, _, rfl⟩
  exact keepChar_toLower c

/-- Claim C9: `normalize_title` and `normalize_id` are pure total
functions (Lean functions on `String`, with the absent-input case the
empty string): both equal the spec's transform — lower-case, then remove
every character that is not an ASCII letter or digit — and map the empty
string to the empty string. -/
theorem normalizers_pure_total_spec :
    (∀ t, normalize_title t = normalizeSpec t) ∧
    (∀ s, normalize_id s = normalizeSpec s) ∧
    normalize_title "" = "" ∧ normalize_id "" = "" :=
  ⟨normalize_title_eq_spec, fun s => normalize_title_eq_spec s, rfl, rfl⟩

/-! ## Claim C7: parse failure leaves the collection untouched -/

/-- Claim C7: when both parser attempts fail on the incoming batch text,
`merge_bib_data` returns the existing collection unchanged with
`added = 0` and `updated = 0`. -/
theorem merge_parse_failure_noop (p1 p2 : String → Option (List Record))
    (existing : List Record) (s : String)
    (h1 : p1 s = none) (h2 : p2 s = none) :
    merge_bib_data p1 p2 existing s = (existing, 0, 0) := by
  unfold merge_bib_data tryParse
  rw [h1, h2]

/-- Claim C7, witnessed at a concrete input: two always-failing parsers
and a nonempty collection. -/
theorem merge_parse_failure_noop_witness :
    (fun _ : String => (none : Option (List Record))) "@bad" = none ∧
    merge_bib_data (fun _ => none) (fun _ => none) [[("title", "Kept")]] "@bad" =
      ([[("title", "Kept")]], 0, 0) :=
  ⟨rfl, merge_parse_failure_noop (fun _ => none) (fun _ => none)
    [[("title", "Kept")]] "@bad" rfl rfl⟩

/-! ## Claim C1: the field-count conflict rule of the merge loop -/

/-- Claim C1: for a processed incoming record (non-empty title) whose
normalized title is a key of the mapping with stored record `stored`
carrying ID `oldId`: if the incoming record has strictly more fields, the
mapping entry is replaced by the incoming record with its `ID` overwritten
to `oldId` and `updated` is incremented; otherwise the mapping and both
counts are unchanged. -/
theorem merge_conflict_field_count (m : EMap) (a u : Nat)
    (entry stored : Record) (oldId : String)
    (htitle : getFieldD entry "title" "" ≠ "")
    (hfound : mapFind? m (normalize_title (getFieldD entry "title" "")) = some stored)
    (hid : getField? stored "ID" = some oldId) :
    (stored.length < entry.length →
      mergeStep (m, a, u) entry =
        (mapInsert m (normalize_title (getFieldD entry "title" ""))
          (setField entry "ID" oldId), a, u + 1)) ∧
    (¬ stored.length < entry.length → mergeStep (m, a, u) entry = (m, a, u)) := by
  constructor <;> intro hlen <;>
    simp only [mergeStep, if_neg htitle, hfound, hid, oldIdOf] <;>
    simp [hlen]

/-- Claim C1, witnessed at concrete inputs: a stored record with 2 fields
against an incoming record with 3 fields (replacement, ID preserved), and
against an incoming record with 2 fields (no-op). -/
theorem merge_conflict_field_count_witness :
    ((getFieldD [("title", "T!"), ("ID", "n1"), ("year", "2020")] "title" "" ≠ "") ∧
      ((([("title", "T"), ("ID", "old1")] : Record).length <
          ([("title", "T!"), ("ID", "n1"), ("year", "2020")] : Record).length →
        mergeStep ([("t", [("title", "T"), ("ID", "old1")])], 0, 0)
            [("title", "T!"), ("ID", "n1"), ("year", "2020")] =
          (mapInsert [("t", [("title", "T"), ("ID", "old1")])]
            (normalize_title
              (getFieldD [("title", "T!"), ("ID", "n1"), ("year", "2020")] "title" ""))
            (setField [("title", "T!"), ("ID", "n1"), ("year", "2020")] "ID" "old1"),
            0, 1)) ∧
      (¬ ([("title", "T"), ("ID", "old1")] : Record).length <
          ([("title", "T!"), ("ID", "n1"), ("year", "2020")] : Record).length →
        mergeStep ([("t", [("title", "T"), ("ID", "old1")])], 0, 0)
            [("title", "T!"), ("ID", "n1"), ("year", "2020")] =
          ([("t", [("title", "T"), ("ID", "old1")])], 0, 0)))) :=
  ⟨by decide,
    merge_conflict_field_count [("t", [("title", "T"), ("ID", "old1")])] 0 0
      [("title", "T!"), ("ID", "n1"), ("year", "2020")]
      [("title", "T"), ("ID", "old1")] "old1"
      (by decide) (by decide) (by decide)⟩

/-! ## Claim C5: the exact-duplicate filter -/

theorem dedupGo_sublist (l : List Record) :
    ∀ seen, (dedupGo seen l).Sublist l := by
  induction l with
  | nil => intro seen; simp [dedupGo]
  | cons e rest ih =>
    intro seen
    simp only [dedupGo]
    split
    · exact (ih seen).cons e
    · exact (ih (pairOf e :: seen)).cons₂ e

theorem dedupGo_eq_keyed (l : List Record) :
    ∀ seen, dedupGo seen l = dedupKeyed (l.filter (fun e => decide (pairOf e ∉ seen))) := by
  induction l with
  | nil => intro seen; simp [dedupGo, dedupKeyed]
  | cons e rest ih =>
    intro seen
    simp only [dedupGo, List.filter_cons]
    by_cases h : pairOf e ∈ seen
    · rw [if_pos h, if_neg (by simp [h])]
      exact ih seen
    · rw [if_neg h, if_pos (by simp [h])]
      rw [dedupKeyed, ih (pairOf e :: seen), List.filter_filter]
      congr 1
      congr 1
      apply List.filter_congr
      intro x _
      rw [Bool.eq_iff_iff]
      simp only [Bool.and_eq_true, decide_eq_true_eq, List.mem_cons]
      tauto

/-- Claim C5: `remove_exact_duplicates` returns a subsequence of the batch
that keeps a record iff its `(normalized title, normalized ID)` pair has
not occurred in an earlier record; in particular two records with empty
title and empty ID collapse to the first. -/
theorem dedup_keeps_first_of_each_pair :
    (∀ entries : List Record,
      (remove_exact_duplicates entries).Sublist entries ∧
      remove_exact_duplicates entries = dedupKeyed entries) ∧
    remove_exact_duplicates [[("author", "A")], [("author", "B")]] =
      [[("author", "A")]] := by
  refine ⟨fun entries => ⟨dedupGo_sublist entries [], ?_⟩, by decide⟩
  rw [remove_exact_duplicates, dedupGo_eq_keyed entries []]
  congr 1
  simp

/-! ## Claim C6: the reassembly rule on confirmation -/

theorem mem_foldl_ids_inner (g : List Record) (y : String) :
    ∀ s, y ∈ g.foldl (fun s2 e => getFieldD e "ID" "" :: s2) s ↔
      y ∈ s ∨ ∃ m ∈ g, getFieldD m "ID" "" = y := by
  induction g with
  | nil => intro s; simp
  | cons e rest ih =>
    intro s
    simp only [List.foldl_cons, ih, List.mem_cons]
    constructor
    · rintro ((h | h) | ⟨m, hm, h⟩)
      · exact Or.inr ⟨e, by simp, h.symm⟩
      · exact Or.inl h
      · exact Or.inr ⟨m, by simp [hm], h⟩
    · rintro (h | ⟨m, hm, h⟩)
      · exact Or.inl (Or.inr h)
      · rcases hm with rfl | hm2
        · exact Or.inl (Or.inl h.symm)
        · exact Or.inr ⟨m, hm2, h⟩

theorem mem_conflictIds (groups : List (List Record)) (y : String) :
    y ∈ conflictIds groups ↔ ∃ g ∈ groups, ∃ m ∈ g, getFieldD m "ID" "" = y := by
  have general : ∀ s, y ∈ groups.foldl
      (fun s g => g.foldl (fun s2 e => getFieldD e "ID" "" :: s2) s) s ↔
      y ∈ s ∨ ∃ g ∈ groups, ∃ m ∈ g, getFieldD m "ID" "" = y := by
    induction groups with
    | nil => intro s; simp
    | cons g rest ih =>
      intro s
      simp only [List.foldl_cons, ih, mem_foldl_ids_inner, List.mem_cons]
      constructor
      · rintro ((h | ⟨m, hm, h⟩) | ⟨g2, hg2, hm⟩)
        · exact Or.inl h
        · exact Or.inr ⟨g, by simp, m, hm, h⟩
        · exact Or.inr ⟨g2, by simp [hg2], hm⟩
      · rintro (h | ⟨g2, hg2, m, hm, h⟩)
        · exact Or.inl (Or.inl h)
        · rcases hg2 with rfl | hg3
          · exact Or.inl (Or.inr ⟨m, hm, h⟩)
          · exact Or.inr ⟨g2, hg3, m, hm, h⟩
  simpa using general []

/-- Claim C6: the reassembled batch on confirmation is exactly one chosen
record per group followed by every record of the filtered batch whose raw
`ID` equals the raw `ID` of no group member. -/
theorem reassemble_matches_spec (groups : List (List Record)) (sels : Nat → Nat)
    (allNew : List Record) :
    reassemble groups sels allNew = reassembleSpec groups sels allNew := by
  simp only [reassemble, reassembleSpec]
  congr 1
  apply List.filter_congr
  intro e _
  rw [Bool.eq_iff_iff]
  simp only [List.contains, List.elem_eq_mem, Bool.not_eq_true',
    decide_eq_false_iff_not, decide_eq_true_eq, mem_conflictIds]
  push_neg
  exact Iff.rfl

/-! ## Association-list lemmas shared by records and dict maps -/

theorem assoc_find?_replace {α : Type} (m : List (String × α)) (k : String) (v : α) :
    (m.map (fun p => if p.1 == k then (k, v) else p)).find? (fun p => p.1 == k) =
      (m.find? (fun p => p.1 == k)).map (fun _ => (k, v)) := by
  induction m with
  | nil => rfl
  | cons p rest ih =>
    rw [List.map_cons, List.find?_cons, List.find?_cons]
    by_cases hp : p.1 = k
    · have hb : (p.1 == k) = true := by simp [hp]
      rw [if_pos hb]
      simp [hb]
    · have hb : (p.1 == k) = false := by simp [hp]
      rw [if_neg (by simp [hp])]
      simp only [hb]
      exact ih

theorem assoc_find?_replace_ne {α : Type} (m : List (String × α)) (k k' : String)
    (v : α) (h : k' ≠ k) :
    (m.map (fun p => if p.1 == k then (k, v) else p)).find? (fun p => p.1 == k') =
      m.find? (fun p => p.1 == k') := by
  induction m with
  | nil => rfl
  | cons p rest ih =>
    rw [List.map_cons, List.find?_cons, List.find?_cons]
    by_cases hp : p.1 = k
    · have hb1 : (((k, v) : String × α).1 == k') = false := by
        simp
        exact fun hkk => h hkk.symm
      have hb2 : (p.1 == k') = false := by
        simp [hp]
        exact fun hkk => h hkk.symm
      rw [if_pos (by simp [hp])]
      simp only [hb1, hb2]
      exact ih
    · rw [if_neg (by simp [hp])]
      by_cases hp2 : p.1 = k'
      · simp [hp2]
      · have hb2 : (p.1 == k') = false := by simp [hp2]
        simp only [hb2]
        exact ih

theorem mapFind?_mapInsert_self (m : EMap) (k : String) (v : Record) :
    mapFind? (mapInsert m k v) k = some v := by
  unfold mapFind? mapInsert
  split
  · rename_i h
    rw [assoc_find?_replace]
    obtain ⟨p, hp⟩ := Option.isSome_iff_exists.mp h
    rw [hp]
    rfl
  · rename_i h
    rw [List.find?_append]
    have hnone : m.find? (fun p => p.1 == k) = none := by
      cases hf : m.find? (fun p => p.1 == k) with
      | none => rfl
      | some p => rw [hf] at h; simp at h
    rw [hnone]
    simp [List.find?_cons]

theorem mapFind?_mapInsert_ne (m : EMap) (k k' : String) (v : Record)
    (h : k' ≠ k) : mapFind? (mapInsert m k v) k' = mapFind? m k' := by
  unfold mapFind? mapInsert
  split
  · rw [assoc_find?_replace_ne m k k' v h]
  · rw [List.find?_append]
    have : List.find? (fun p => p.1 == k') [(k, v)] = none := by
      simp [List.find?_cons, beq_eq_false_iff_ne.mpr (fun hkk => h hkk.symm)]
    rw [this]
    cases m.find? (fun p => p.1 == k') <;> rfl

theorem mem_mapInsert {q : String × Record} (m : EMap) (k : String) (v : Record)
    (hq : q ∈ mapInsert m k v) : q ∈ m ∨ q = (k, v) := by
  unfold mapInsert at hq
  split at hq
  · rcases List.mem_map.mp hq with ⟨p, hp, rfl⟩
    by_cases hb : p.1 = k
    · right; rw [if_pos (by simp [hb])]
    · left; rw [if_neg (by simp [hb])]; exact hp
  · rcases List.mem_append.mp hq with h | h
    · exact Or.inl h
    · right; simpa using h

theorem mapFind?_mem (m : EMap) (k : String) (v : Record)
    (h : mapFind? m k = some v) : (k, v) ∈ m := by
  unfold mapFind? at h
  cases hf : m.find? (fun p => p.1 == k) with
  | none => rw [hf] at h; simp at h
  | some p =>
    rw [hf] at h
    have hp1 : p.1 = k := by simpa using List.find?_some hf
    have hp2 : p.2 = v := by simpa using h
    have : (k, v) = p := by rw [← hp1, ← hp2]
    rw [this]
    exact List.mem_of_find?_eq_some hf

theorem getField?_setField_ne (r : Record) (k k' v : String) (h : k' ≠ k) :
    getField? (setField r k v) k' = getField? r k' := by
  unfold getField? setField
  split
  · rw [assoc_find?_replace_ne r k k' v h]
  · rw [List.find?_append]
    have : List.find? (fun p => p.1 == k') [(k, v)] = none := by
      simp [List.find?_cons, beq_eq_false_iff_ne.mpr (fun hkk => h hkk.symm)]
    rw [this]
    cases r.find? (fun p => p.1 == k') <;> rfl

theorem setField_length_ge (r : Record) (k v : String) :
    r.length ≤ (setField r k v).length := by
  unfold setField
  split
  · rw [List.length_map]
  · rw [List.length_append]
    omega

theorem keyOf_setField_id (e : Record) (x : String) :
    keyOf (setField e "ID" x) = keyOf e := by
  unfold keyOf getFieldD
  rw [getField?_setField_ne e "ID" "title" x (by decide)]

/-! ## The title-keyed map invariant of the merge engine -/

/-- The invariant the merge engine maintains on its title-keyed dict: keys
are pairwise distinct (Python dict), and every stored record's normalized
title is its key. -/
def MapInv (m : EMap) : Prop :=
  (m.map (fun p => p.1)).Nodup ∧ ∀ p ∈ m, keyOf p.2 = p.1

theorem mapInsert_inv (m : EMap) (k : String) (v : Record) (hm : MapInv m)
    (hv : keyOf v = k) : MapInv (mapInsert m k v) := by
  obtain ⟨h1, h2⟩ := hm
  unfold mapInsert
  split
  · constructor
    · have hkeys : (m.map (fun p => if p.1 == k then (k, v) else p)).map
          (fun p => p.1) = m.map (fun p => p.1) := by
        rw [List.map_map]
        apply List.map_congr_left
        intro p _
        by_cases hb : p.1 = k
        · simp [hb]
        · simp [hb]
      rw [hkeys]
      exact h1
    · intro p hp
      rcases List.mem_map.mp hp with ⟨q, hq, rfl⟩
      by_cases hb : q.1 = k
      · rw [if_pos (by simp [hb])]; exact hv
      · rw [if_neg (by simp [hb])]; exact h2 q hq
  · rename_i hns
    have hnone : m.find? (fun p => p.1 == k) = none := by
      cases hf : m.find? (fun p => p.1 == k) with
      | none => rfl
      | some p => rw [hf] at hns; simp at hns
    constructor
    · rw [List.map_append]
      apply List.Nodup.append h1 (by simp)
      intro a ha hb
      have hak : a = k := by simpa using hb
      rcases List.mem_map.mp ha with ⟨p, hp, rfl⟩
      have := List.find?_eq_none.mp hnone p hp
      simp [hak] at this
    · intro p hp
      rcases List.mem_append.mp hp with h | h
      · exact h2 p h
      · have : p = (k, v) := by simpa using h
        rw [this]
        exact hv

theorem buildTitleMap_inv (es : List Record) : MapInv (buildTitleMap es) := by
  have gen : ∀ m : EMap, MapInv m →
      MapInv (es.foldl (fun m2 e => mapInsert m2 (keyOf e) e) m) := by
    induction es with
    | nil => intro m hm; exact hm
    | cons e rest ih =>
      intro m hm
      exact ih (mapInsert m (keyOf e) e) (mapInsert_inv m (keyOf e) e hm rfl)
  exact gen [] ⟨by simp, by simp⟩

theorem buildTitleMap_mem (es : List Record) (p : String × Record)
    (hp : p ∈ buildTitleMap es) : p.2 ∈ es := by
  have gen : ∀ m : EMap, (∀ q ∈ m, q.2 ∈ es) →
      ∀ q ∈ es.foldl (fun m2 e => mapInsert m2 (keyOf e) e) m, q.2 ∈ es := by
    have aux : ∀ (l : List Record) (m : EMap), (∀ q ∈ m, q.2 ∈ es) →
        (∀ e ∈ l, e ∈ es) →
        ∀ q ∈ l.foldl (fun m2 e => mapInsert m2 (keyOf e) e) m, q.2 ∈ es := by
      intro l
      induction l with
      | nil => intro m hm _ q hq; exact hm q hq
      | cons e rest ih =>
        intro m hm hl q hq
        apply ih (mapInsert m (keyOf e) e) _ (fun x hx => hl x (by simp [hx])) q hq
        intro r hr
        rcases mem_mapInsert m (keyOf e) e hr with h | h
        · exact hm r h
        · rw [h]; exact hl e (by simp)
    intro m hm
    exact aux es m hm (fun e he => he)
  exact gen [] (by simp) p hp

/-! ## Case equations for the merge loop body -/

theorem keyOf_def (e : Record) : keyOf e = normalize_title (getFieldD e "title" "") := rfl

theorem mergeStep_untitled (st : EMap × Nat × Nat) (entry : Record)
    (ht : getFieldD entry "title" "" = "") : mergeStep st entry = st := by
  simp [mergeStep, ht]

theorem mergeStep_win (st : EMap × Nat × Nat) (entry stored : Record)
    (ht : getFieldD entry "title" "" ≠ "")
    (hf : mapFind? st.1 (normalize_title (getFieldD entry "title" "")) = some stored)
    (hw : stored.length < entry.length) :
    mergeStep st entry =
      (mapInsert st.1 (normalize_title (getFieldD entry "title" ""))
        (setField entry "ID" (oldIdOf stored entry)), st.2.1, st.2.2 + 1) := by
  simp [mergeStep, ht, hf, hw]

theorem mergeStep_lose (st : EMap × Nat × Nat) (entry stored : Record)
    (ht : getFieldD entry "title" "" ≠ "")
    (hf : mapFind? st.1 (normalize_title (getFieldD entry "title" "")) = some stored)
    (hw : ¬ stored.length < entry.length) : mergeStep st entry = st := by
  simp [mergeStep, ht, hf, hw]

theorem mergeStep_new (st : EMap × Nat × Nat) (entry : Record)
    (ht : getFieldD entry "title" "" ≠ "")
    (hf : mapFind? st.1 (normalize_title (getFieldD entry "title" "")) = none) :
    mergeStep st entry =
      (mapInsert st.1 (normalize_title (getFieldD entry "title" "")) entry,
        st.2.1 + 1, st.2.2) := by
  simp [mergeStep, ht, hf]

/-! ## Invariant, growth, coverage and no-op lemmas for the merge fold -/

theorem mergeStep_inv (st : EMap × Nat × Nat) (e : Record) (h : MapInv st.1) :
    MapInv (mergeStep st e).1 := by
  by_cases ht : getFieldD e "title" "" = ""
  · rw [mergeStep_untitled st e ht]; exact h
  · cases hf : mapFind? st.1 (normalize_title (getFieldD e "title" "")) with
    | some stored =>
      by_cases hw : stored.length < e.length
      · rw [mergeStep_win st e stored ht hf hw]
        exact mapInsert_inv st.1 _ _ h (keyOf_setField_id e _)
      · rw [mergeStep_lose st e stored ht hf hw]; exact h
    | none =>
      rw [mergeStep_new st e ht hf]
      exact mapInsert_inv st.1 _ _ h rfl

theorem foldl_mergeStep_inv (batch : List Record) :
    ∀ st : EMap × Nat × Nat, MapInv st.1 →
      MapInv (batch.foldl mergeStep st).1 := by
  induction batch with
  | nil => intro st h; exact h
  | cons e rest ih => intro st h; exact ih (mergeStep st e) (mergeStep_inv st e h)

theorem mergeStep_grows (st : EMap × Nat × Nat) (e : Record) (k : String) (v : Record)
    (h : mapFind? st.1 k = some v) :
    ∃ v', mapFind? (mergeStep st e).1 k = some v' ∧ v.length ≤ v'.length := by
  by_cases ht : getFieldD e "title" "" = ""
  · rw [mergeStep_untitled st e ht]; exact ⟨v, h, Nat.le_refl _⟩
  · cases hf : mapFind? st.1 (normalize_title (getFieldD e "title" "")) with
    | some stored =>
      by_cases hw : stored.length < e.length
      · rw [mergeStep_win st e stored ht hf hw]
        by_cases hk : k = normalize_title (getFieldD e "title" "")
        · subst hk
          rw [h] at hf
          have hvs : v = stored := Option.some.inj hf
          refine ⟨setField e "ID" (oldIdOf stored e), mapFind?_mapInsert_self _ _ _, ?_⟩
          have hsl := setField_length_ge e "ID" (oldIdOf stored e)
          rw [hvs]
          omega
        · rw [show (mapInsert st.1 (normalize_title (getFieldD e "title" ""))
              (setField e "ID" (oldIdOf stored e)), st.2.1, st.2.2 + 1).1 =
              mapInsert st.1 (normalize_title (getFieldD e "title" ""))
                (setField e "ID" (oldIdOf stored e)) from rfl,
            mapFind?_mapInsert_ne _ _ _ _ hk]
          exact ⟨v, h, Nat.le_refl _⟩
      · rw [mergeStep_lose st e stored ht hf hw]; exact ⟨v, h, Nat.le_refl _⟩
    | none =>
      rw [mergeStep_new st e ht hf]
      by_cases hk : k = normalize_title (getFieldD e "title" "")
      · subst hk; rw [hf] at h; cases h
      · rw [show (mapInsert st.1 (normalize_title (getFieldD e "title" "")) e,
            st.2.1 + 1, st.2.2).1 =
            mapInsert st.1 (normalize_title (getFieldD e "title" "")) e from rfl,
          mapFind?_mapInsert_ne _ _ _ _ hk]
        exact ⟨v, h, Nat.le_refl _⟩

theorem foldl_mergeStep_grows (batch : List Record) :
    ∀ (st : EMap × Nat × Nat) (k : String) (v : Record),
      mapFind? st.1 k = some v →
      ∃ v', mapFind? (batch.foldl mergeStep st).1 k = some v' ∧
        v.length ≤ v'.length := by
  induction batch with
  | nil => intro st k v h; exact ⟨v, h, Nat.le_refl _⟩
  | cons e rest ih =>
    intro st k v h
    obtain ⟨v1, h1, hl1⟩ := mergeStep_grows st e k v h
    obtain ⟨v2, h2, hl2⟩ := ih (mergeStep st e) k v1 h1
    exact ⟨v2, h2, Nat.le_trans hl1 hl2⟩

theorem mergeStep_covers (st : EMap × Nat × Nat) (e : Record)
    (ht : getFieldD e "title" "" ≠ "") :
    ∃ v, mapFind? (mergeStep st e).1 (keyOf e) = some v ∧ e.length ≤ v.length := by
  rw [keyOf_def]
  cases hf : mapFind? st.1 (normalize_title (getFieldD e "title" "")) with
  | some stored =>
    by_cases hw : stored.length < e.length
    · rw [mergeStep_win st e stored ht hf hw]
      refine ⟨setField e "ID" (oldIdOf stored e), mapFind?_mapInsert_self _ _ _, ?_⟩
      exact setField_length_ge e "ID" (oldIdOf stored e)
    · rw [mergeStep_lose st e stored ht hf hw]
      exact ⟨stored, hf, Nat.le_of_not_lt hw⟩
  | none =>
    rw [mergeStep_new st e ht hf]
    exact ⟨e, mapFind?_mapInsert_self _ _ _, Nat.le_refl _⟩

theorem foldl_mergeStep_covers (batch : List Record) :
    ∀ (st : EMap × Nat × Nat) (e : Record), e ∈ batch →
      getFieldD e "title" "" ≠ "" →
      ∃ v, mapFind? (batch.foldl mergeStep st).1 (keyOf e) = some v ∧
        e.length ≤ v.length := by
  induction batch with
  | nil => intro st e he; cases he
  | cons hd rest ih =>
    intro st e he ht
    rcases List.mem_cons.mp he with rfl | hmem
    · obtain ⟨v0, h0, hl0⟩ := mergeStep_covers st e ht
      obtain ⟨v1, h1, hl1⟩ := foldl_mergeStep_grows rest (mergeStep st e) (keyOf e) v0 h0
      exact ⟨v1, h1, Nat.le_trans hl0 hl1⟩
    · exact ih (mergeStep st hd) e hmem ht

theorem foldl_mergeStep_noop (batch : List Record) :
    ∀ (m : EMap) (a u : Nat),
      (∀ e ∈ batch, getFieldD e "title" "" ≠ "" →
        ∃ v, mapFind? m (keyOf e) = some v ∧ e.length ≤ v.length) →
      batch.foldl mergeStep (m, a, u) = (m, a, u) := by
  induction batch with
  | nil => intro m a u _; rfl
  | cons hd rest ih =>
    intro m a u hcov
    have hstep : mergeStep (m, a, u) hd = (m, a, u) := by
      by_cases ht : getFieldD hd "title" "" = ""
      · exact mergeStep_untitled _ hd ht
      · obtain ⟨v, hv, hlen⟩ := hcov hd (by simp) ht
        rw [keyOf_def] at hv
        exact mergeStep_lose (m, a, u) hd v ht hv (by omega)
    rw [List.foldl_cons, hstep]
    exact ih m a u (fun e he => hcov e (List.mem_cons_of_mem _ he))

theorem mapFind?_eq_none_iff (m : EMap) (k : String) :
    mapFind? m k = none ↔ m.find? (fun p => p.1 == k) = none := by
  unfold mapFind?
  cases m.find? (fun p => p.1 == k) <;> simp

/-- Rebuilding the title-keyed map from its own values gives the map back
(the second pass of an idempotent merge starts from the same map). -/
theorem buildTitleMap_values (m : EMap) (hm : MapInv m) :
    buildTitleMap (mapValues m) = m := by
  obtain ⟨h1, h2⟩ := hm
  have gen : ∀ (mm acc : EMap),
      (∀ p ∈ mm, keyOf p.2 = p.1) → ((mm.map (fun p => p.1)).Nodup) →
      (∀ p ∈ mm, mapFind? acc p.1 = none) →
      (mapValues mm).foldl (fun m2 e => mapInsert m2 (keyOf e) e) acc = acc ++ mm := by
    intro mm
    induction mm with
    | nil => intro acc _ _ _; simp [mapValues]
    | cons p rest ih =>
      intro acc hkey hnodup hfresh
      rw [List.map_cons] at hnodup
      obtain ⟨hp1, hrest⟩ := List.nodup_cons.mp hnodup
      simp only [mapValues, List.map_cons, List.foldl_cons]
      have hk : keyOf p.2 = p.1 := hkey p (by simp)
      have hfind : acc.find? (fun q => q.1 == p.1) = none :=
        (mapFind?_eq_none_iff acc p.1).mp (hfresh p (by simp))
      have hins : mapInsert acc (keyOf p.2) p.2 = acc ++ [p] := by
        rw [hk]
        unfold mapInsert
        rw [if_neg (by rw [hfind]; simp)]
      rw [hins]
      have hres := ih (acc ++ [p]) (fun q hq => hkey q (by simp [hq])) hrest ?fresh
      case fresh =>
        intro q hq
        rw [mapFind?_eq_none_iff, List.find?_append,
          (mapFind?_eq_none_iff acc q.1).mp (hfresh q (by simp [hq]))]
        have hne : ¬ p.1 = q.1 := fun hpq =>
          hp1 (by rw [hpq]; exact List.mem_map_of_mem _ hq)
        simp [List.find?_cons, hne]
      rw [show (mapValues rest) = rest.map (fun p => p.2) from rfl] at hres
      rw [hres]
      simp
  have := gen m [] h2 h1 (fun p _ => rfl)
  simpa [buildTitleMap] using this

theorem mergeEntries_idem (existing es : List Record) :
    mergeEntries (mergeEntries existing es).1 es = ((mergeEntries existing es).1, 0, 0) := by
  have hinv : MapInv ((es.foldl mergeStep (buildTitleMap existing, 0, 0)).1) :=
    foldl_mergeStep_inv es _ (buildTitleMap_inv existing)
  have hre := buildTitleMap_values _ hinv
  have hcov : ∀ e ∈ es, getFieldD e "title" "" ≠ "" →
      ∃ v, mapFind? (es.foldl mergeStep (buildTitleMap existing, 0, 0)).1
        (keyOf e) = some v ∧ e.length ≤ v.length :=
    fun e he ht => foldl_mergeStep_covers es (buildTitleMap existing, 0, 0) e he ht
  have hnoop := foldl_mergeStep_noop es
    (es.foldl mergeStep (buildTitleMap existing, 0, 0)).1 0 0 hcov
  show mergeEntries
      (mapValues (es.foldl mergeStep (buildTitleMap existing, 0, 0)).1) es =
    (mapValues (es.foldl mergeStep (buildTitleMap existing, 0, 0)).1, 0, 0)
  simp only [mergeEntries]
  rw [hre, hnoop]

/-- Claim C3: merging the same parsed batch a second time — rebuilding the
title map from the first merge's output — changes nothing and reports
`added = 0`, `updated = 0`. -/
theorem merge_idempotent_second_pass (p1 p2 : String → Option (List Record))
    (existing es : List Record) (s : String)
    (h : tryParse p1 p2 s = some es) :
    merge_bib_data p1 p2 (merge_bib_data p1 p2 existing s).1 s =
      ((merge_bib_data p1 p2 existing s).1, 0, 0) := by
  unfold merge_bib_data
  rw [h]
  exact mergeEntries_idem existing es

/-- Claim C3, witnessed at a concrete input: a parser producing one
record, merged into the empty collection and then merged again. -/
theorem merge_idempotent_second_pass_witness :
    tryParse (fun _ => some [[("title", "A"), ("ID", "x")]]) (fun _ => none) "@a" =
      some [[("title", "A"), ("ID", "x")]] ∧
    merge_bib_data (fun _ => some [[("title", "A"), ("ID", "x")]]) (fun _ => none)
        (merge_bib_data (fun _ => some [[("title", "A"), ("ID", "x")]])
          (fun _ => none) [] "@a").1 "@a" =
      ((merge_bib_data (fun _ => some [[("title", "A"), ("ID", "x")]])
          (fun _ => none) [] "@a").1, 0, 0) :=
  ⟨rfl, merge_idempotent_second_pass (fun _ => some [[("title", "A"), ("ID", "x")]])
    (fun _ => none) [] [[("title", "A"), ("ID", "x")]] "@a" rfl⟩

/-- Claim C2: no two records of a collection produced by the merge engine
share a normalized title. -/
theorem merge_title_uniqueness (existing batch : List Record) :
    ((mergeEntries existing batch).1).Pairwise
      (fun a b => normalize_title (getFieldD a "title" "") ≠
        normalize_title (getFieldD b "title" "")) := by
  obtain ⟨h1, h2⟩ :=
    foldl_mergeStep_inv batch (buildTitleMap existing, 0, 0) (buildTitleMap_inv existing)
  show (mapValues (batch.foldl mergeStep (buildTitleMap existing, 0, 0)).1).Pairwise _
  unfold mapValues
  rw [List.pairwise_map]
  have h1p : (batch.foldl mergeStep (buildTitleMap existing, 0, 0)).1.Pairwise
      (fun p q => p.1 ≠ q.1) := List.pairwise_map.mp h1
  refine List.Pairwise.imp_of_mem ?_ h1p
  intro a b ha hb hne
  have ka := h2 a ha
  have kb := h2 b hb
  rw [keyOf_def] at ka kb
  rw [ka, kb]
  exact hne

/-! ## Claim C8: untitled records are dropped -/

theorem foldl_mergeStep_filter (batch : List Record) :
    ∀ st, batch.foldl mergeStep st =
      (batch.filter (fun e => !(getFieldD e "title" "" == ""))).foldl mergeStep st := by
  induction batch with
  | nil => intro st; rfl
  | cons e rest ih =>
    intro st
    by_cases ht : getFieldD e "title" "" = ""
    · rw [List.foldl_cons, mergeStep_untitled st e ht,
        List.filter_cons, if_neg (by simp [ht])]
      exact ih st
    · rw [List.foldl_cons, List.filter_cons, if_pos (by simp [ht]), List.foldl_cons]
      exact ih (mergeStep st e)

theorem mergeStep_mem (st : EMap × Nat × Nat) (e : Record) (q : String × Record)
    (hq : q ∈ (mergeStep st e).1) :
    q ∈ st.1 ∨ getFieldD q.2 "title" "" ≠ "" := by
  by_cases ht : getFieldD e "title" "" = ""
  · rw [mergeStep_untitled st e ht] at hq
    exact Or.inl hq
  · cases hf : mapFind? st.1 (normalize_title (getFieldD e "title" "")) with
    | some stored =>
      by_cases hw : stored.length < e.length
      · rw [mergeStep_win st e stored ht hf hw] at hq
        rcases mem_mapInsert st.1 _ _ hq with h | h
        · exact Or.inl h
        · right
          rw [h]
          show getFieldD (setField e "ID" (oldIdOf stored e)) "title" "" ≠ ""
          unfold getFieldD
          rw [getField?_setField_ne e "ID" "title" _ (by decide)]
          exact ht
      · rw [mergeStep_lose st e stored ht hf hw] at hq
        exact Or.inl hq
    | none =>
      rw [mergeStep_new st e ht hf] at hq
      rcases mem_mapInsert st.1 _ _ hq with h | h
      · exact Or.inl h
      · right
        rw [h]
        exact ht

theorem foldl_mergeStep_mem (batch : List Record) :
    ∀ st q, q ∈ (batch.foldl mergeStep st).1 →
      q ∈ st.1 ∨ getFieldD q.2 "title" "" ≠ "" := by
  induction batch with
  | nil => intro st q hq; exact Or.inl hq
  | cons e rest ih =>
    intro st q hq
    rcases ih (mergeStep st e) q hq with h | h
    · exact mergeStep_mem st e q h
    · exact Or.inr h

/-- Claim C8: a batch record with absent or empty title is dropped before
any comparison: the merge result equals the merge of the title-filtered
batch (so such a record contributes to neither count), and such a record
absent from the existing collection never appears in the output. -/
theorem merge_drops_untitled (existing batch : List Record) :
    mergeEntries existing batch =
      mergeEntries existing
        (batch.filter (fun e => !(getFieldD e "title" "" == ""))) ∧
    ∀ r ∈ batch, getFieldD r "title" "" = "" → r ∉ existing →
      r ∉ (mergeEntries existing batch).1 := by
  constructor
  · simp only [mergeEntries]
    rw [← foldl_mergeStep_filter batch (buildTitleMap existing, 0, 0)]
  · intro r hr ht hex hmem
    have hmem2 : r ∈ mapValues (batch.foldl mergeStep (buildTitleMap existing, 0, 0)).1 :=
      hmem
    obtain ⟨p, hp, hp2⟩ := List.mem_map.mp hmem2
    rcases foldl_mergeStep_mem batch (buildTitleMap existing, 0, 0) p hp with h | h
    · exact hex (by rw [← hp2]; exact buildTitleMap_mem existing p h)
    · rw [hp2] at h
      exact h ht

/-- Claim C8, witnessed at a concrete input: an untitled record with other
fields populated vanishes from the merge of a singleton batch. -/
theorem merge_drops_untitled_witness :
    ([("author", "A"), ("year", "2020")] : Record) ∈
        ([[("author", "A"), ("year", "2020")]] : List Record) ∧
    getFieldD [("author", "A"), ("year", "2020")] "title" "" = "" ∧
    ([("author", "A"), ("year", "2020")] : Record) ∉ ([] : List Record) ∧
    ([("author", "A"), ("year", "2020")] : Record) ∉
      (mergeEntries [] [[("author", "A"), ("year", "2020")]]).1 :=
  ⟨by decide, by decide, by decide,
    (merge_drops_untitled [] [[("author", "A"), ("year", "2020")]]).2
      [("author", "A"), ("year", "2020")] (by decide) (by decide) (by decide)⟩

/-! ## Claims C4 and C10: the similarity grouper -/

theorem foldl_mapInsert_mem (f : Record → String) (es : List Record)
    (p : String × Record)
    (hp : p ∈ es.foldl (fun m2 e => mapInsert m2 (f e) e) []) : p.2 ∈ es := by
  have aux : ∀ (l : List Record) (m : EMap), (∀ q ∈ m, q.2 ∈ es) →
      (∀ e ∈ l, e ∈ es) →
      ∀ q ∈ l.foldl (fun m2 e => mapInsert m2 (f e) e) m, q.2 ∈ es := by
    intro l
    induction l with
    | nil => intro m hm _ q hq; exact hm q hq
    | cons e rest ih =>
      intro m hm hl q hq
      apply ih (mapInsert m (f e) e) _ (fun x hx => hl x (by simp [hx])) q hq
      intro r hr
      rcases mem_mapInsert m (f e) e hr with h | h
      · exact hm r h
      · rw [h]; exact hl e (by simp)
  exact aux es [] (by simp) (fun e he => he) p hp

theorem buildIdMap_mem (es : List Record) (p : String × Record)
    (hp : p ∈ buildIdMap es) : p.2 ∈ es := by
  unfold buildIdMap at hp
  exact foldl_mapInsert_mem (fun e => normalize_id (getFieldD e "ID" "")) es p hp

theorem exclCheck_eq_spec (titleMap idMap : EMap) (t1 id1 : String) (e1 : Record)
    (hT : ∀ p ∈ titleMap, (getField? p.2 "ID").isSome)
    (hI : ∀ p ∈ idMap, (getField? p.2 "title").isSome) :
    exclCheck titleMap idMap t1 id1 e1 =
      some (specExcl titleMap idMap t1 id1 e1) := by
  have second : exclCheckId idMap id1 e1 =
      some (match mapFind? idMap id1 with
        | some e => getFieldD e "title" "" == getFieldD e1 "title" ""
        | none => false) := by
    unfold exclCheckId
    cases hg : mapFind? idMap id1 with
    | some e2 =>
      obtain ⟨w, hw⟩ :=
        Option.isSome_iff_exists.mp (hI (id1, e2) (mapFind?_mem _ _ _ hg))
      have hw2 : getField? e2 "title" = some w := hw
      have hgd : getFieldD e2 "title" "" = w := by unfold getFieldD; rw [hw2]; rfl
      simp [hw2, hgd]
    | none => rfl
  unfold exclCheck specExcl
  cases hf : mapFind? titleMap t1 with
  | some e =>
    obtain ⟨v, hv⟩ :=
      Option.isSome_iff_exists.mp (hT (t1, e) (mapFind?_mem _ _ _ hf))
    have hv2 : getField? e "ID" = some v := hv
    have hgd : getFieldD e "ID" "" = v := by unfold getFieldD; rw [hv2]; rfl
    by_cases heq : v = getFieldD e1 "ID" ""
    · simp [hv2, hgd, heq]
    · simp [hv2, hgd, heq, second]
  | none =>
    simp [second]

theorem fseLoop_eq_spec (titleMap idMap : EMap)
    (hT : ∀ p ∈ titleMap, (getField? p.2 "ID").isSome)
    (hI : ∀ p ∈ idMap, (getField? p.2 "title").isSome) :
    ∀ (l : List (Nat × Record)) (processed : List Nat),
      fseLoop titleMap idMap l processed =
        some (specLoop titleMap idMap l processed) := by
  intro l
  induction l with
  | nil => intro processed; rfl
  | cons hd rest ih =>
    intro processed
    obtain ⟨i, entry1⟩ := hd
    by_cases hp : i ∈ processed
    · simp only [fseLoop, specLoop, if_pos hp]
      exact ih processed
    · simp only [fseLoop, specLoop, if_neg hp]
      rw [exclCheck_eq_spec titleMap idMap _ _ entry1 hT hI]
      cases hb : specExcl titleMap idMap
          (normalize_title (getFieldD entry1 "title" ""))
          (normalize_id (getFieldD entry1 "ID" "")) entry1 with
      | true => simp [ih]
      | false => simp [ih]
  -- after `rw` the match on `some (specExcl ...)` reduces through the
  -- `cases`; the size-1 filter is syntactically shared by both sides

/-- Claim C4: when every existing record carries both an `ID` and a
`title` field, `find_similar_entries` returns (without raising) exactly
the groups of the spec's anchor scan: groups of size at least 2 built in
batch order by matching later unprocessed records against the anchor on
normalized ID or normalized title, a group being discarded when its
anchor is already reconciled with the library. -/
theorem find_similar_matches_spec (entries existing : List Record)
    (h : ∀ e ∈ existing, (getField? e "ID").isSome ∧ (getField? e "title").isSome) :
    find_similar_entries entries existing =
      some (findSimilarSpec entries existing) := by
  unfold find_similar_entries findSimilarSpec
  apply fseLoop_eq_spec
  · intro p hp
    exact (h p.2 (buildTitleMap_mem existing p hp)).1
  · intro p hp
    exact (h p.2 (buildIdMap_mem existing p hp)).2

/-- Claim C4, witnessed at a concrete input: two batch records sharing a
normalized title against a one-record library. -/
theorem find_similar_matches_spec_witness :
    (∀ e ∈ ([[("title", "Existing"), ("ID", "e1")]] : List Record),
      (getField? e "ID").isSome ∧ (getField? e "title").isSome) ∧
    find_similar_entries
        [[("ID", "a"), ("title", "Deep Learning")],
          [("ID", "b"), ("title", "deep learning!!")]]
        [[("title", "Existing"), ("ID", "e1")]] =
      some (findSimilarSpec
        [[("ID", "a"), ("title", "Deep Learning")],
          [("ID", "b"), ("title", "deep learning!!")]]
        [[("title", "Existing"), ("ID", "e1")]]) :=
  ⟨by decide, find_similar_matches_spec
    [[("ID", "a"), ("title", "Deep Learning")],
      [("ID", "b"), ("title", "deep learning!!")]]
    [[("title", "Existing"), ("ID", "e1")]] (by decide)⟩

/-- Claim C10: when every existing record carries both an `ID` and a
`title` field, the similarity grouper completes without raising an
exception (no `KeyError` from the unguarded `['ID']` / `['title']`
accesses of the exclusion check). -/
theorem find_similar_no_exception (entries existing : List Record)
    (h : ∀ e ∈ existing, (getField? e "ID").isSome ∧ (getField? e "title").isSome) :
    (find_similar_entries entries existing).isSome := by
  unfold find_similar_entries
  rw [fseLoop_eq_spec (buildTitleMap existing) (buildIdMap existing)
    (fun p hp => (h p.2 (buildTitleMap_mem existing p hp)).1)
    (fun p hp => (h p.2 (buildIdMap_mem existing p hp)).2)]
  rfl

/-- Claim C10, witnessed at a concrete input: a two-record library with
both fields present and a batch with an internal duplicate pair. -/
theorem find_similar_no_exception_witness :
    (∀ e ∈ ([[("title", "L1"), ("ID", "k1")], [("title", "L2"), ("ID", "k2")]] :
        List Record),
      (getField? e "ID").isSome ∧ (getField? e "title").isSome) ∧
    (find_similar_entries
      [[("ID", "x"), ("title", "Same Work")], [("ID", "y"), ("title", "same-work")]]
      [[("title", "L1"), ("ID", "k1")], [("title", "L2"), ("ID", "k2")]]).isSome :=
  ⟨by decide, find_similar_no_exception
    [[("ID", "x"), ("title", "Same Work")], [("ID", "y"), ("title", "same-work")]]
    [[("title", "L1"), ("ID", "k1")], [("title", "L2"), ("ID", "k2")]] (by decide)⟩
